import Mathlib

/-!
Verification of the guided Langevin sampler in src/samplers/guided_langevin.py.

The sampler class guided_LD runs an annealed Langevin dynamics loop over
diffusion timesteps (lines 69 to 97), combining a score-model gradient with a
data-consistency gradient, then post-processes the final candidate into an
8-bit image with optional thresholding and circular masking (method edit,
lines 136 to 154) and records SSIM and PSNR metrics to a stats.json file
(lines 105 to 134).

Helper code from modules that are not part of this repository snapshot
(datasets.utils: normalize, unnormalize, ifft, MulticoilForwardMRI;
models.get_sigmas) is modelled from the specification, as marked in the
corresponding doc comments.
-/

namespace GuidedLD

/-! ## Loop skeleton (lines 69 to 84) -/

/-- Lines 72 to 75: the inner iteration count is forced to 3 for steps with
step <= 1800 and is the configured n_steps_each otherwise. -/
def nStepsAt (n_steps_each step : ℕ) : ℕ :=
  if step ≤ 1800 then 3 else n_steps_each

/-- Lines 69 to 71: the outer loop runs step over range(num_classes) and
skips (continue) every step with step <= start_iter. -/
def includedSteps (num_classes start_iter : ℕ) : List ℕ :=
  (List.range num_classes).filter (fun s => !decide (s ≤ start_iter))

/-- The flat list of inner iterations of one batch: each included outer step
contributes nStepsAt copies of itself (lines 69 to 84); each entry stands for
exactly one inner Langevin iteration, hence exactly one score-model query
(line 86). -/
def events (num_classes start_iter n_steps_each : ℕ) : List ℕ :=
  (includedSteps num_classes start_iter).flatMap
    (fun s => List.replicate (nStepsAt n_steps_each s) s)

/-- Number of score-model queries performed for one batch: one per inner
iteration. -/
def scoreQueries (num_classes start_iter n_steps_each : ℕ) : ℕ :=
  (events num_classes start_iter n_steps_each).length

theorem includedSteps_eq_range' (n si : ℕ) :
    includedSteps n si = List.range' (si + 1) (n - (si + 1)) := by
  induction n with
  | zero => simp [includedSteps]
  | succ n ih =>
    rw [includedSteps, List.range_succ, List.filter_append] at *
    rw [ih]
    by_cases h : n ≤ si
    · have h1 : n + 1 - (si + 1) = 0 := by omega
      have h2 : n - (si + 1) = 0 := by omega
      simp [h, h1, h2]
    · have h1 : n + 1 - (si + 1) = (n - (si + 1)) + 1 := by omega
      have h2 : si + 1 + 1 * (n - (si + 1)) = n := by omega
      rw [h1, List.range'_concat, h2]
      simp [h]

theorem scoreQueries_eq_sum (n si nse : ℕ) :
    scoreQueries n si nse =
      ((includedSteps n si).map (nStepsAt nse)).sum := by
  rw [scoreQueries, events]
  induction includedSteps n si with
  | nil => rfl
  | cons s rest ih =>
    simp only [List.flatMap_cons, List.map_cons, List.length_append,
      List.sum_cons, List.length_replicate, ih]

/-- C5: for every configuration, the outer annealing loop visits exactly the
timesteps start_iter + 1 through num_classes - 1 inclusive, in strictly
increasing order, and no step below or equal to start_iter is visited. -/
theorem outer_loop_steps (n si : ℕ) :
    includedSteps n si = List.range' (si + 1) (n - (si + 1)) ∧
    List.Pairwise (· < ·) (includedSteps n si) ∧
    (∀ s, s ∈ includedSteps n si ↔ si + 1 ≤ s ∧ s ≤ n - 1) := by
  refine ⟨includedSteps_eq_range' n si, ?_, ?_⟩
  · exact (List.pairwise_lt_range n).sublist (List.filter_sublist _)
  · intro s
    rw [includedSteps, List.mem_filter, List.mem_range]
    constructor
    · rintro ⟨hlt, hkeep⟩
      simp only [Bool.not_eq_eq_eq_not, Bool.not_true, decide_eq_false_iff_not,
        not_le] at hkeep
      omega
    · rintro ⟨h1, h2⟩
      have : s < n := by omega
      refine ⟨this, ?_⟩
      simp only [Bool.not_eq_eq_eq_not, Bool.not_true, decide_eq_false_iff_not,
        not_le]
      omega

/-- C1 counterexample: with num_classes = 10, start_iter = 5,
n_steps_each = 1, the loop performs 4 outer steps but, because every step is
below the hard-coded 1800 threshold, each outer step runs 3 inner iterations,
so the score model is queried 12 times, not 4. -/
theorem cfg10_score_queries_counterexample :
    (includedSteps 10 5).length = 4 ∧ scoreQueries 10 5 1 ≠ 4 := by
  decide

/-- C1 amended: with num_classes = 10, start_iter = 5, n_steps_each = 1, the
loop performs 4 outer steps; the step <= 1800 override forces 3 inner
iterations at each of them, so the score model is queried exactly 12 times
for the batch. -/
theorem cfg10_score_queries :
    (includedSteps 10 5).length = 4 ∧
    (includedSteps 10 5).map (nStepsAt 1) = [3, 3, 3, 3] ∧
    scoreQueries 10 5 1 = 12 := by
  decide

/-! ## Noise schedule and step size (line 82, spec section 4.1) -/

/-- Sampler configuration fields read by the loop (spec section 6). -/
structure SamplerCfg where
  num_classes : ℕ
  start_iter : ℕ
  n_steps_each : ℕ
  step_lr : ℝ
  mse : ℝ
  sigma_max : ℝ
  sigma_min : ℝ

/-- Modelled from the spec: get_sigmas (models module, not in src) produces
the geometric schedule sigmas[k] = sigma_max * (sigma_min/sigma_max)^(k/(num_classes-1))
(spec section 4.1). -/
noncomputable def sigma_at (cfg : SamplerCfg) (k : ℕ) : ℝ :=
  cfg.sigma_max * (cfg.sigma_min / cfg.sigma_max) ^
    ((k : ℝ) / ((cfg.num_classes : ℝ) - 1))

/-- Line 82: step_size = step_lr * (sigma / sigmas[-1]) ** 2, where sigma is
sigmas[step] and sigmas[-1] is the last entry, sigmas[num_classes - 1]. -/
noncomputable def step_size_at (cfg : SamplerCfg) (k : ℕ) : ℝ :=
  cfg.step_lr * (sigma_at cfg k / sigma_at cfg (cfg.num_classes - 1)) ^ 2

theorem sigma_at_last (cfg : SamplerCfg) (hmin : 0 < cfg.sigma_min)
    (hmax : cfg.sigma_min < cfg.sigma_max) (hn : 2 ≤ cfg.num_classes) :
    sigma_at cfg (cfg.num_classes - 1) = cfg.sigma_min := by
  have hmax0 : (0 : ℝ) < cfg.sigma_max := lt_trans hmin hmax
  have hcast : ((cfg.num_classes - 1 : ℕ) : ℝ) = (cfg.num_classes : ℝ) - 1 := by
    have : 1 ≤ cfg.num_classes := by omega
    push_cast [this]
    ring
  have hne : (cfg.num_classes : ℝ) - 1 ≠ 0 := by
    have : (2 : ℝ) ≤ (cfg.num_classes : ℝ) := by exact_mod_cast hn
    intro hcontra
    nlinarith
  rw [sigma_at, hcast, div_self hne, Real.rpow_one]
  field_simp

/-- C6: for every step, the step size equals
step_lr * (sigma_at step / sigma_at last)^2; under a valid configuration
(positive geometric schedule, at least two classes, non-negative base
learning rate) it is non-negative, and at the last timestep it equals the
base learning rate exactly. -/
theorem step_size_formula (cfg : SamplerCfg) (k : ℕ) (hmin : 0 < cfg.sigma_min)
    (hmax : cfg.sigma_min < cfg.sigma_max) (hn : 2 ≤ cfg.num_classes)
    (hlr : 0 ≤ cfg.step_lr) :
    step_size_at cfg k =
      cfg.step_lr * (sigma_at cfg k / sigma_at cfg (cfg.num_classes - 1)) ^ 2 ∧
    0 ≤ step_size_at cfg k ∧
    step_size_at cfg (cfg.num_classes - 1) = cfg.step_lr := by
  refine ⟨rfl, ?_, ?_⟩
  · exact mul_nonneg hlr (sq_nonneg _)
  · rw [step_size_at, sigma_at_last cfg hmin hmax hn,
      div_self (ne_of_gt hmin)]
    norm_num

/-- Witness for C6 at the concrete configuration sigma_min = 1,
sigma_max = 2, num_classes = 2, step_lr = 1, step k = 0. -/
theorem step_size_formula_witness :
    (0 : ℝ) < 1 ∧ (1 : ℝ) < 2 ∧ (2 ≤ 2) ∧ (0 : ℝ) ≤ 1 ∧
    (step_size_at ⟨2, 0, 1, 1, 1, 2, 1⟩ 0 =
      1 * (sigma_at ⟨2, 0, 1, 1, 1, 2, 1⟩ 0 /
        sigma_at ⟨2, 0, 1, 1, 1, 2, 1⟩ (2 - 1)) ^ 2 ∧
     0 ≤ step_size_at ⟨2, 0, 1, 1, 1, 2, 1⟩ 0 ∧
     step_size_at ⟨2, 0, 1, 1, 1, 2, 1⟩ (2 - 1) = 1) :=
  ⟨by norm_num, by norm_num, by norm_num, by norm_num,
    step_size_formula ⟨2, 0, 1, 1, 1, 2, 1⟩ 0 (by norm_num) (by norm_num)
      (by norm_num) (by norm_num)⟩

/-! ## Tensor model of the sampling loop (lines 54 to 99)

The candidate xt is a real tensor of shape [B, 2, H, W] (two channels holding
the real and imaginary parts); k-space data are complex tensors of shape
[B, C, H, W] with C coils. Real numbers model floating-point values. -/

/-- Real candidate tensor of shape [B, 2, H, W] (line 66). -/
def RT (B H W : ℕ) : Type := Fin B → Fin 2 → Fin H → Fin W → ℝ

/-- Complex k-space / coil tensor of shape [B, C, H, W]. -/
def KT (B C H W : ℕ) : Type := Fin B → Fin C → Fin H → Fin W → ℂ

/-- Complex image tensor of shape [B, H, W]. -/
def CI (B H W : ℕ) : Type := Fin B → Fin H → Fin W → ℂ

/-- Per-batch data: coil sensitivity maps, undersampling mask, ground-truth
k-space, and the scale factor derived from estimated_mvue (lines 56 to 61). -/
structure MRIData (B C H W : ℕ) where
  maps : KT B C H W
  mask : Fin H → Fin W → ℝ
  ref : KT B C H W
  scale : ℝ

/-- Line 63: torch.complex(x[:, 0], x[:, 1]) reassembles the two real
channels into one complex image. -/
noncomputable def toComplexImage {B H W : ℕ} (x : RT B H W) : CI B H W :=
  fun b h w => Complex.I * (x b 1 h w) + (x b 0 h w)

/-- Modelled from the spec: the 2D unitary discrete Fourier transform used by
the forward operator (datasets.utils, not in src; spec section 4.2). -/
noncomputable def dft2 {H W : ℕ} (f : Fin H → Fin W → ℂ) :
    Fin H → Fin W → ℂ := fun k l =>
  (Real.sqrt ((H : ℝ) * (W : ℝ)) : ℂ)⁻¹ *
    ∑ h : Fin H, ∑ w : Fin W, f h w *
      Complex.exp (-(2 * Real.pi * Complex.I) *
        (((h.1 * k.1 : ℕ) : ℂ) / (H : ℂ) + ((w.1 * l.1 : ℕ) : ℂ) / (W : ℂ)))

/-- Modelled from the spec: the 2D unitary inverse discrete Fourier transform
(ifft in datasets.utils, not in src; spec section 4.2). -/
noncomputable def idft2 {H W : ℕ} (f : Fin H → Fin W → ℂ) :
    Fin H → Fin W → ℂ := fun h w =>
  (Real.sqrt ((H : ℝ) * (W : ℝ)) : ℂ)⁻¹ *
    ∑ k : Fin H, ∑ l : Fin W, f k l *
      Complex.exp ((2 * Real.pi * Complex.I) *
        (((h.1 * k.1 : ℕ) : ℂ) / (H : ℂ) + ((w.1 * l.1 : ℕ) : ℂ) / (W : ℂ)))

/-- Modelled from the spec: MulticoilForwardMRI (datasets.utils, not in src;
lines 62 to 64): multiply the complex image by each coil sensitivity map and
apply the masked Fourier transform (spec section 4.2). The dependence of the
mask layout on the acquisition direction is absorbed into the mask function. -/
noncomputable def forwardOp {B C H W : ℕ} (maps : KT B C H W)
    (mask : Fin H → Fin W → ℝ) (img : CI B H W) : KT B C H W :=
  fun b c k l => (mask k l : ℂ) * dft2 (fun h w => maps b c h w * img b h w) k l

/-- Lines 89 to 90: torch.sum(ifft(residual) * torch.conj(maps), axis=1), the
adjoint coil combination of a k-space residual (spec section 4.2). -/
noncomputable def adjointCoilCombine {B C H W : ℕ} (maps : KT B C H W)
    (resid : KT B C H W) : CI B H W :=
  fun b h w => ∑ c : Fin C, idft2 (resid b c) h w * star (maps b c h w)

/-- Lines 89 to 90: torch.view_as_real followed by permute(0, 3, 1, 2) turns
a complex image back into the two-channel real layout. -/
noncomputable def complexToChannels {B H W : ℕ} (z : CI B H W) : RT B H W :=
  fun b ch h w => if ch.1 = 0 then (z b h w).re else (z b h w).im

/-- Modelled from the spec: normalize (datasets.utils, not in src) rescales
its argument by the scale factor derived from estimated_mvue; the spec calls
the per-step use at line 88 denormalization of the candidate to measurement
scale using the estimated reference (spec section 4.4 step 2b). -/
noncomputable def normalize {B H W : ℕ} (x : RT B H W) (s : ℝ) : RT B H W :=
  fun b c h w => x b c h w * s

/-- Modelled from the spec: unnormalize (datasets.utils, not in src) is the
inverse rescaling, undoing the scaling normalization (spec section 4.3
step 4; used at line 91). -/
noncomputable def unnormalize {B H W : ℕ} (x : RT B H W) (s : ℝ) : RT B H W :=
  fun b c h w => x b c h w / s

/-- torch.norm: the Frobenius norm of a [B, 2, H, W] tensor (lines 93
and 94). -/
noncomputable def tnorm {B H W : ℕ} (x : RT B H W) : ℝ :=
  Real.sqrt (∑ b, ∑ c, ∑ h, ∑ w, x b c h w ^ 2)

/-- Lines 88 to 92: the unscaled data-consistency gradient: simulate k-space
from the denormalized candidate, subtract the ground truth, apply the adjoint
coil combination, return to the two-channel layout and undo the scaling.
The dtype cast at line 92 is the identity in the real-number model. -/
noncomputable def rawMeasGrad {B C H W : ℕ} (d : MRIData B C H W)
    (xt : RT B H W) : RT B H W :=
  unnormalize (complexToChannels (adjointCoilCombine d.maps
    (fun b c k l =>
      forwardOp d.maps d.mask (toComplexImage (normalize xt d.scale)) b c k l
        - d.ref b c k l))) d.scale

/-- Lines 93 and 94: meas_grad /= torch.norm(meas_grad) then
meas_grad *= torch.norm(p_grad): the gradient immediately before the mse
mixing weight is applied. -/
noncomputable def measGradRescaled {B C H W : ℕ} (d : MRIData B C H W)
    (xt p_grad : RT B H W) : RT B H W :=
  fun b c h w => rawMeasGrad d xt b c h w / tnorm (rawMeasGrad d xt)
    * tnorm p_grad

/-- Line 95: meas_grad *= mse. -/
noncomputable def measGrad {B C H W : ℕ} (d : MRIData B C H W) (mse : ℝ)
    (xt p_grad : RT B H W) : RT B H W :=
  fun b c h w => measGradRescaled d xt p_grad b c h w * mse

/-- Lines 84 to 97: one inner Langevin iteration. The score model S is the
external collaborator of spec section 6; g is the fresh standard Gaussian
draw of this iteration (randn_like at line 85). -/
noncomputable def innerStep {B C H W : ℕ} (d : MRIData B C H W)
    (cfg : SamplerCfg) (S : RT B H W → ℕ → RT B H W) (step : ℕ)
    (g : RT B H W) (xt : RT B H W) : RT B H W :=
  let noise : RT B H W :=
    fun b c h w => g b c h w * Real.sqrt (step_size_at cfg step * 2)
  let p_grad := S xt step
  let mg := measGrad d cfg.mse xt p_grad
  fun b c h w =>
    xt b c h w + step_size_at cfg step * (p_grad b c h w - mg b c h w)
      + noise b c h w

/-- The loop of lines 69 to 97 over the flattened list of inner iterations;
ctr indexes the stream G of fresh Gaussian draws. -/
noncomputable def runFrom {B C H W : ℕ} (d : MRIData B C H W)
    (cfg : SamplerCfg) (S : RT B H W → ℕ → RT B H W) (G : ℕ → RT B H W) :
    ℕ → RT B H W → List ℕ → RT B H W
  | _, xt, [] => xt
  | ctr, xt, s :: rest =>
      runFrom d cfg S G (ctr + 1) (innerStep d cfg S s (G ctr) xt) rest

/-- The candidate after the first i inner iterations of one batch. -/
noncomputable def stateAt {B C H W : ℕ} (d : MRIData B C H W)
    (cfg : SamplerCfg) (S : RT B H W → ℕ → RT B H W) (G : ℕ → RT B H W)
    (xt0 : RT B H W) (i : ℕ) : RT B H W :=
  runFrom d cfg S G 0 xt0
    ((events cfg.num_classes cfg.start_iter cfg.n_steps_each).take i)

/-- Line 99: after the outer loop, the candidate is rescaled once more with
normalize before being turned into the display image. -/
noncomputable def finalCandidate {B C H W : ℕ} (d : MRIData B C H W)
    (cfg : SamplerCfg) (S : RT B H W → ℕ → RT B H W) (G : ℕ → RT B H W)
    (xt0 : RT B H W) : RT B H W :=
  normalize (runFrom d cfg S G 0 xt0
    (events cfg.num_classes cfg.start_iter cfg.n_steps_each)) d.scale

/-! ## C2: the inner update rule -/

/-- The update rule as the spec words it (section 4.4 step 2b): draw fresh
Gaussian noise scaled by sqrt(2 * step_size); query the score model at
(xt, step) for p_grad; compute the data-consistency gradient meas_grad; set
xt to xt + step_size * (p_grad - meas_grad) + noise. -/
noncomputable def specUpdate {B C H W : ℕ} (d : MRIData B C H W)
    (cfg : SamplerCfg) (S : RT B H W → ℕ → RT B H W) (step : ℕ)
    (gauss xt : RT B H W) : RT B H W :=
  fun b c h w =>
    xt b c h w
      + step_size_at cfg step * (S xt step b c h w
          - measGrad d cfg.mse xt (S xt step) b c h w)
      + Real.sqrt (2 * step_size_at cfg step) * gauss b c h w

theorem innerStep_eq_specUpdate {B C H W : ℕ} (d : MRIData B C H W)
    (cfg : SamplerCfg) (S : RT B H W → ℕ → RT B H W) (step : ℕ)
    (g xt : RT B H W) :
    innerStep d cfg S step g xt = specUpdate d cfg S step g xt := by
  funext b c h w
  simp only [innerStep, specUpdate]
  rw [mul_comm (step_size_at cfg step) 2]
  ring

theorem runFrom_append {B C H W : ℕ} (d : MRIData B C H W) (cfg : SamplerCfg)
    (S : RT B H W → ℕ → RT B H W) (G : ℕ → RT B H W) (l1 l2 : List ℕ) :
    ∀ (ctr : ℕ) (xt : RT B H W),
      runFrom d cfg S G ctr xt (l1 ++ l2) =
        runFrom d cfg S G (ctr + l1.length) (runFrom d cfg S G ctr xt l1) l2 := by
  induction l1 with
  | nil => intro ctr xt; simp [runFrom]
  | cons s rest ih =>
    intro ctr xt
    simp only [List.cons_append, runFrom, List.length_cons]
    rw [List.append_eq, ih]
    have harith : ctr + (rest.length + 1) = ctr + 1 + rest.length := by omega
    rw [harith]

theorem take_succ_of_lt {α : Type} [Inhabited α] (l : List α) :
    ∀ i : ℕ, i < l.length → l.take (i + 1) = l.take i ++ [l.getD i default] := by
  induction l with
  | nil => intro i hi; simp at hi
  | cons a t ih =>
    intro i hi
    cases i with
    | zero => simp
    | succ j =>
      have hj : j < t.length := by simpa using hi
      simp [List.take_succ_cons, ih j hj]

theorem stateAt_succ {B C H W : ℕ} (d : MRIData B C H W) (cfg : SamplerCfg)
    (S : RT B H W → ℕ → RT B H W) (G : ℕ → RT B H W) (xt0 : RT B H W)
    (i : ℕ)
    (hi : i < (events cfg.num_classes cfg.start_iter cfg.n_steps_each).length) :
    stateAt d cfg S G xt0 (i + 1) =
      innerStep d cfg S
        ((events cfg.num_classes cfg.start_iter cfg.n_steps_each).getD i 0)
        (G i) (stateAt d cfg S G xt0 i) := by
  unfold stateAt
  rw [take_succ_of_lt _ i hi, runFrom_append]
  have hlen :
      ((events cfg.num_classes cfg.start_iter cfg.n_steps_each).take i).length
        = i := by
    simp [List.length_take]
    omega
  rw [hlen]
  simp [runFrom]

/-- C2: for every inner iteration of every included outer step, the candidate
after the iteration equals the spec update of the candidate before it: fresh
Gaussian noise scaled by sqrt(2 * step_size), p_grad the score output for
(xt, step), meas_grad the data-consistency gradient, and
xt + step_size * (p_grad - meas_grad) + noise as the new candidate. -/
theorem inner_update_matches_spec {B C H W : ℕ} (d : MRIData B C H W)
    (cfg : SamplerCfg) (S : RT B H W → ℕ → RT B H W) (G : ℕ → RT B H W)
    (xt0 : RT B H W) (i : ℕ)
    (hi : i < (events cfg.num_classes cfg.start_iter cfg.n_steps_each).length) :
    stateAt d cfg S G xt0 (i + 1) =
      specUpdate d cfg S
        ((events cfg.num_classes cfg.start_iter cfg.n_steps_each).getD i 0)
        (G i) (stateAt d cfg S G xt0 i) := by
  rw [stateAt_succ d cfg S G xt0 i hi, innerStep_eq_specUpdate]

/-! ## Concrete instances used by the witnesses (B = C = H = W = 1) -/

/-- Candidate with real channel 1 and imaginary channel 0. -/
noncomputable def xt1 : RT 1 1 1 :=
  fun _ c _ _ => if c.1 = 0 then 1 else 0

/-- Data with unit maps, full mask, zero ground truth and unit scale. -/
noncomputable def d1 : MRIData 1 1 1 1 :=
  ⟨fun _ _ _ _ => 1, fun _ _ => 1, fun _ _ _ _ => 0, 1⟩

/-- The configuration of the end-to-end scenario of the spec. -/
noncomputable def cfg1 : SamplerCfg := ⟨10, 5, 1, 1, 1, 2, 1⟩

/-- A constant score model stub. -/
noncomputable def S1 : RT 1 1 1 → ℕ → RT 1 1 1 := fun _ _ => fun _ _ _ _ => 3

/-- A zero noise stream. -/
noncomputable def G1 : ℕ → RT 1 1 1 := fun _ => fun _ _ _ _ => 0

/-- A constant prior gradient. -/
noncomputable def p1 : RT 1 1 1 := fun _ _ _ _ => 3

/-- Witness for C2 at the first inner iteration of the concrete instance. -/
theorem inner_update_matches_spec_witness :
    0 < (events cfg1.num_classes cfg1.start_iter cfg1.n_steps_each).length ∧
    stateAt d1 cfg1 S1 G1 xt1 1 =
      specUpdate d1 cfg1 S1
        ((events cfg1.num_classes cfg1.start_iter cfg1.n_steps_each).getD 0 0)
        (G1 0) (stateAt d1 cfg1 S1 G1 xt1 0) :=
  ⟨by decide, inner_update_matches_spec d1 cfg1 S1 G1 xt1 0 (by decide)⟩

/-! ## C3: the rescaling step preserves the prior gradient norm -/

theorem tnorm_scale {B H W : ℕ} (x : RT B H W) (a : ℝ) :
    tnorm (fun b c h w => x b c h w * a) = tnorm x * |a| := by
  unfold tnorm
  have hsum : (∑ b, ∑ c, ∑ h, ∑ w, (x b c h w * a) ^ 2)
      = (∑ b, ∑ c, ∑ h, ∑ w, x b c h w ^ 2) * a ^ 2 := by
    simp only [mul_pow, ← Finset.sum_mul]
  rw [hsum, Real.sqrt_mul (by positivity), Real.sqrt_sq_eq_abs]

/-- C3: the data-consistency gradient immediately before the mse mixing
weight is applied (the result of the rescaling at lines 93 and 94) has
exactly the norm of the prior gradient p_grad, provided the unscaled
data-consistency gradient has nonzero norm. -/
theorem rescaled_grad_norm_eq_prior_norm {B C H W : ℕ} (d : MRIData B C H W)
    (xt p_grad : RT B H W) (hne : tnorm (rawMeasGrad d xt) ≠ 0) :
    tnorm (measGradRescaled d xt p_grad) = tnorm p_grad := by
  have h0 : 0 ≤ tnorm (rawMeasGrad d xt) := Real.sqrt_nonneg _
  have hp : 0 ≤ tnorm p_grad := Real.sqrt_nonneg _
  have hfun : measGradRescaled d xt p_grad
      = fun b c h w => rawMeasGrad d xt b c h w *
          (tnorm p_grad / tnorm (rawMeasGrad d xt)) := by
    funext b c h w
    unfold measGradRescaled
    ring
  rw [hfun, tnorm_scale, abs_of_nonneg (div_nonneg hp h0)]
  field_simp

theorem rawMeasGrad_d1_xt1 : rawMeasGrad d1 xt1 = xt1 := by
  funext b c h w
  fin_cases b
  fin_cases h
  fin_cases w
  unfold rawMeasGrad unnormalize complexToChannels adjointCoilCombine idft2
    forwardOp dft2 toComplexImage normalize d1 xt1
  fin_cases c <;>
    simp [Fin.sum_univ_one, Complex.ext_iff]

theorem tnorm_xt1 : tnorm xt1 = 1 := by
  unfold tnorm xt1
  rw [Fin.sum_univ_one, Fin.sum_univ_two]
  norm_num

/-- Witness for C3 at the concrete instance, where the unscaled gradient has
norm one. -/
theorem rescaled_grad_norm_eq_prior_norm_witness :
    tnorm (rawMeasGrad d1 xt1) ≠ 0 ∧
    tnorm (measGradRescaled d1 xt1 p1) = tnorm p1 :=
  ⟨by rw [rawMeasGrad_d1_xt1, tnorm_xt1]; norm_num,
    rescaled_grad_norm_eq_prior_norm d1 xt1 p1
      (by rw [rawMeasGrad_d1_xt1, tnorm_xt1]; norm_num)⟩

/-! ## C4: the post-loop rescale is not the inverse of the per-step one -/

/-- C4 counterexample: lines 88 and 99 call the same normalize, so composing
the per-step denormalization with the post-loop rescale at scale 2 multiplies
the candidate by 4 and is not the identity. -/
theorem post_loop_rescale_not_inverse :
    normalize (normalize xt1 2) 2 ≠ xt1 := by
  intro hcontra
  have hpt := congrFun (congrFun (congrFun (congrFun hcontra 0) 0) 0) 0
  simp only [normalize, xt1] at hpt
  norm_num at hpt

/-- C4 amended: the post-loop rescale at line 99 applies the same scaling as
the per-step denormalization at line 88, not its inverse; their composition
multiplies the candidate by the square of the scale factor derived from
estimated_mvue, and is the identity only when that square is one. -/
theorem post_loop_rescale_squares_scale {B H W : ℕ} (x : RT B H W) (s : ℝ) :
    normalize (normalize x s) s = fun b c h w => x b c h w * s ^ 2 := by
  funext b c h w
  simp only [normalize]
  ring

/-! ## C10: the division by the gradient norm is unguarded -/

open Classical in
/-- Lines 93 to 97 with the zero divisor made explicit: in a total embedding
the division by torch.norm(meas_grad) at line 93 has an error branch when the
norm is zero; the source has no guard, so the checked step fails there. -/
noncomputable def measGradChecked {B C H W : ℕ} (d : MRIData B C H W)
    (mse : ℝ) (xt p_grad : RT B H W) : Option (RT B H W) :=
  if tnorm (rawMeasGrad d xt) = 0 then none
  else some (measGrad d mse xt p_grad)

/-- One inner iteration in the checked embedding. -/
noncomputable def innerStepChecked {B C H W : ℕ} (d : MRIData B C H W)
    (cfg : SamplerCfg) (S : RT B H W → ℕ → RT B H W) (step : ℕ)
    (g xt : RT B H W) : Option (RT B H W) :=
  (measGradChecked d cfg.mse xt (S xt step)).map (fun mg =>
    fun b c h w =>
      xt b c h w + step_size_at cfg step * (S xt step b c h w - mg b c h w)
        + g b c h w * Real.sqrt (step_size_at cfg step * 2))

/-- The loop in the checked embedding: a failed iteration aborts the batch. -/
noncomputable def runFromChecked {B C H W : ℕ} (d : MRIData B C H W)
    (cfg : SamplerCfg) (S : RT B H W → ℕ → RT B H W) (G : ℕ → RT B H W) :
    ℕ → RT B H W → List ℕ → Option (RT B H W)
  | _, xt, [] => some xt
  | ctr, xt, s :: rest =>
      (innerStepChecked d cfg S s (G ctr) xt).bind
        (fun xt2 => runFromChecked d cfg S G (ctr + 1) xt2 rest)

/-- The final candidate of line 99 in the checked embedding. -/
noncomputable def finalCandidateChecked {B C H W : ℕ} (d : MRIData B C H W)
    (cfg : SamplerCfg) (S : RT B H W → ℕ → RT B H W) (G : ℕ → RT B H W)
    (xt0 : RT B H W) : Option (RT B H W) :=
  (runFromChecked d cfg S G 0 xt0
    (events cfg.num_classes cfg.start_iter cfg.n_steps_each)).map
    (fun x => normalize x d.scale)

theorem rawMeasGrad_zero_of_consistent {B C H W : ℕ} (d : MRIData B C H W)
    (xt : RT B H W)
    (href : d.ref
      = forwardOp d.maps d.mask (toComplexImage (normalize xt d.scale))) :
    rawMeasGrad d xt = fun _ _ _ _ => 0 := by
  funext b c h w
  simp only [rawMeasGrad, href, sub_self]
  simp [unnormalize, complexToChannels, adjointCoilCombine, idft2]

theorem tnorm_const_zero {B H W : ℕ} :
    tnorm (fun _ _ _ _ => (0 : ℝ) : RT B H W) = 0 := by
  unfold tnorm
  simp

/-- C10: when the simulated k-space of the denormalized candidate exactly
matches the ground-truth k-space (a reachable input, since ref is external
data), the unscaled data-consistency gradient is identically zero and the
division at line 93 divides by a zero norm; no code path guards it, so in the
checked embedding the failure propagates through the loop into the final
candidate. -/
theorem zero_residual_divzero_reachable {B C H W : ℕ} (d : MRIData B C H W)
    (cfg : SamplerCfg) (S : RT B H W → ℕ → RT B H W) (G : ℕ → RT B H W)
    (xt0 : RT B H W)
    (href : d.ref
      = forwardOp d.maps d.mask (toComplexImage (normalize xt0 d.scale)))
    (hev : events cfg.num_classes cfg.start_iter cfg.n_steps_each ≠ []) :
    tnorm (rawMeasGrad d xt0) = 0 ∧
    finalCandidateChecked d cfg S G xt0 = none := by
  have hz : tnorm (rawMeasGrad d xt0) = 0 := by
    rw [rawMeasGrad_zero_of_consistent d xt0 href]
    exact tnorm_const_zero
  refine ⟨hz, ?_⟩
  obtain ⟨s, rest, he⟩ := List.exists_cons_of_ne_nil hev
  rw [finalCandidateChecked, he]
  simp [runFromChecked, innerStepChecked, measGradChecked, hz]

/-- Data for the C10 witness: the ground truth is defined as the simulated
k-space of the candidate xt1, so the residual is exactly zero. -/
noncomputable def d10 : MRIData 1 1 1 1 :=
  ⟨fun _ _ _ _ => 1, fun _ _ => 1,
    forwardOp (fun _ _ _ _ => 1) (fun _ _ => 1)
      (toComplexImage (normalize xt1 1)), 1⟩

/-- Witness for C10 at the concrete consistent instance. -/
theorem zero_residual_divzero_reachable_witness :
    d10.ref = forwardOp d10.maps d10.mask
      (toComplexImage (normalize xt1 d10.scale)) ∧
    events cfg1.num_classes cfg1.start_iter cfg1.n_steps_each ≠ [] ∧
    (tnorm (rawMeasGrad d10 xt1) = 0 ∧
      finalCandidateChecked d10 cfg1 S1 G1 xt1 = none) :=
  ⟨rfl, by decide,
    zero_residual_divzero_reachable d10 cfg1 S1 G1 xt1 rfl (by decide)⟩

/-! ## C8: shape semantics of the loop (lines 62 to 97)

Torch tensors carry a runtime shape; the shape semantics below records, for
every tensor operation the loop performs, the shape of its result, with none
for the shape errors torch would raise. -/

/-- A torch tensor shape. -/
abbrev Shape : Type := List ℕ

/-- Line 66: xt = torch.randn((batch_size, 2, image_size[0], image_size[1])). -/
def initShape (batch h w : ℕ) : Shape := [batch, 2, h, w]

/-- Line 63: torch.complex(x[:, 0], x[:, 1]) needs a second dimension of at
least 2 and drops it. -/
def complexShape : Shape → Option Shape
  | b :: c :: rest => if 2 ≤ c then some (b :: rest) else none
  | _ => none

/-- Lines 62 to 64: the forward operator takes a complex image [B, H, W] and
maps of shape [B, C, H, W] to k-space of shape [B, C, H, W]. -/
def forwardShape (mapsS : Shape) : Shape → Option Shape
  | [b, h, w] =>
      match mapsS with
      | [b2, c, h2, w2] =>
          if b = b2 ∧ h = h2 ∧ w = w2 then some [b, c, h, w] else none
      | _ => none
  | _ => none

/-- Elementwise binary operation (meas - ref at line 90, and the additions of
line 97): both operands must have the same shape. -/
def sameShape (s t : Shape) : Option Shape :=
  if s = t then some s else none

/-- torch.sum(..., axis=1) at line 90 drops the coil dimension. -/
def sumAxis1Shape : Shape → Option Shape
  | b :: _ :: rest => some (b :: rest)
  | _ => none

/-- torch.view_as_real appends a trailing dimension of size 2 (line 89). -/
def viewAsRealShape (s : Shape) : Shape := s ++ [2]

/-- .permute(0, 3, 1, 2) at line 90 requires a rank-4 tensor. -/
def permute0312Shape : Shape → Option Shape
  | [a, b, c, d] => some [a, d, b, c]
  | _ => none

/-- Modelled from the spec: the score network returns a tensor of the same
shape as its input (spec section 6, Score Estimator contract). -/
def scoreShape (s : Shape) : Shape := s

/-- Shape of the data-consistency gradient of lines 88 to 95; normalize,
unnormalize, the dtype cast and the three scalar operations preserve the
shape, the ifft and the conjugate-multiply are elementwise on [B, C, H, W]. -/
def measGradShape (mapsS refS xtS : Shape) : Option Shape := do
  let imgS ← complexShape xtS
  let measS ← forwardShape mapsS imgS
  let residS ← sameShape measS refS
  let prodS ← sameShape residS mapsS
  let summedS ← sumAxis1Shape prodS
  permute0312Shape (viewAsRealShape summedS)

/-- Shape of one inner iteration (lines 84 to 97): noise has the shape of xt
(randn_like), p_grad has the shape of xt (score contract), and line 97 adds
xt, the gradient difference and the noise elementwise. -/
def innerStepShape (mapsS refS xtS : Shape) : Option Shape := do
  let pS := scoreShape xtS
  let mS ← measGradShape mapsS refS xtS
  let dS ← sameShape pS mS
  let uS ← sameShape xtS dS
  sameShape uS xtS

/-- The shape of the candidate after k inner iterations. -/
def shapeIter (mapsS refS : Shape) : ℕ → Shape → Option Shape
  | 0, s => some s
  | k + 1, s => (innerStepShape mapsS refS s).bind (shapeIter mapsS refS k)

theorem innerStepShape_inv (b c h w : ℕ) :
    innerStepShape [b, c, h, w] [b, c, h, w] [b, 2, h, w]
      = some [b, 2, h, w] := by
  simp [innerStepShape, measGradShape, complexShape, forwardShape, sameShape,
    sumAxis1Shape, viewAsRealShape, permute0312Shape, scoreShape, Bind.bind,
    Option.bind]

/-- C8: the candidate tensor has shape [batch, 2, H, W] at initialization
(line 66) and before and after every inner-iteration update of every outer
step: with maps and ref of shape [batch, C, H, W], after any number of inner
iterations the candidate still has shape [batch, 2, H, W] and no shape error
occurs. -/
theorem candidate_shape_invariant (batch c h w : ℕ) :
    initShape batch h w = [batch, 2, h, w] ∧
    ∀ k : ℕ, shapeIter [batch, c, h, w] [batch, c, h, w] k
      (initShape batch h w) = some [batch, 2, h, w] := by
  refine ⟨rfl, ?_⟩
  intro k
  induction k with
  | zero => rfl
  | succ j ih =>
    show (innerStepShape _ _ _).bind _ = _
    rw [show initShape batch h w = [batch, 2, h, w] from rfl,
      innerStepShape_inv]
    simpa [Option.bind] using ih

/-! ## C7: metric accumulation and the stats.json write (lines 105 to 134)

For each slice the SSIM and PSNR scores are appended (lines 111 to 114)
before the optional image saving (lines 116 to 129); the saves run with no
exception handling, so a failing save raises out of sample() and the
json.dump of line 133, which runs once after all batches, never executes.
Slices are abstracted to a list; metric gives the (ssim, psnr) pair of a
slice and saveOk tells whether the image input/output of a slice succeeds. -/

/-- The per-slice loop: accumulate metrics, then attempt the save when
save_images is set; a failed save raises, carrying away the in-memory
accumulator. -/
def runSlices {α : Type} (save_images : Bool) (metric : α → ℝ × ℝ)
    (saveOk : α → Bool) :
    List α → List (ℝ × ℝ) → Except (List (ℝ × ℝ)) (List (ℝ × ℝ))
  | [], acc => .ok acc
  | s :: rest, acc =>
      if save_images && !saveOk s then .error (acc ++ [metric s])
      else runSlices save_images metric saveOk rest (acc ++ [metric s])

/-- The content of stats.json at the end of the run: written (some) only when
no save raised, since line 133 follows the batch loop with no try or finally
block. -/
def statsFile {α : Type} (save_images : Bool) (metric : α → ℝ × ℝ)
    (saveOk : α → Bool) (slices : List α) : Option (List (ℝ × ℝ)) :=
  match runSlices save_images metric saveOk slices [] with
  | .ok acc => some acc
  | .error _ => none

/-- C7 counterexample: with save_images enabled and a slice whose image save
fails, the run aborts before line 133 and stats.json is never written, so the
metrics are not persisted despite having been computed. -/
theorem stats_lost_on_save_failure :
    statsFile true (fun _ : Unit => ((1 : ℝ), (1 : ℝ))) (fun _ => false) [()]
      = none := by
  rfl

/-- C7 amended: metrics are computed and accumulated for every slice before
its save is attempted, but the final stats.json write only happens when no
image save fails; in particular it always happens when save_images is
disabled, and when every save succeeds it contains the metrics of all slices
in order. -/
theorem stats_written_when_saves_ok {α : Type} (save_images : Bool)
    (metric : α → ℝ × ℝ) (saveOk : α → Bool) (slices : List α)
    (hok : save_images = false ∨ ∀ s ∈ slices, saveOk s = true) :
    statsFile save_images metric saveOk slices = some (slices.map metric) := by
  have key : ∀ (l : List α) (acc : List (ℝ × ℝ)),
      (save_images = false ∨ ∀ s ∈ l, saveOk s = true) →
      runSlices save_images metric saveOk l acc = .ok (acc ++ l.map metric) := by
    intro l
    induction l with
    | nil => intro acc _; simp [runSlices]
    | cons s rest ih =>
      intro acc hl
      have hguard : (save_images && !saveOk s) = false := by
        rcases hl with h | h
        · simp [h]
        · simp [h s (by simp)]
      rw [runSlices, hguard]
      simp only [Bool.false_eq_true, if_false]
      rw [ih (acc ++ [metric s])
        (by rcases hl with h | h
            · exact Or.inl h
            · exact Or.inr fun t ht => h t (by simp [ht]))]
      simp
  rw [statsFile, key slices [] hok]
  simp

/-- Witness for C7 amended: two slices, all saves succeed. -/
theorem stats_written_when_saves_ok_witness :
    (true = false ∨ ∀ s ∈ [(), ()], (fun _ : Unit => true) s = true) ∧
    statsFile true (fun _ : Unit => ((1 : ℝ), (2 : ℝ))) (fun _ => true)
      [(), ()] = some ([(), ()].map (fun _ => ((1 : ℝ), (2 : ℝ)))) :=
  ⟨Or.inr (by decide),
    stats_written_when_saves_ok true (fun _ => ((1 : ℝ), (2 : ℝ)))
      (fun _ => true) [(), ()] (Or.inr (by decide))⟩

/-! ## C9: the circular field-of-view mask (lines 149 to 152)

cv2.circle(mask, (192, 192), 165, 255, -1) fills the disc of radius 165
centred at pixel (192, 192) (the cv2 centre is given as (column, row));
cv2.bitwise_and(recon, recon, mask=mask) keeps a pixel where the mask is
nonzero and writes 0 elsewhere. The filled disc is modelled as the ideal
disc of squared radius 165^2. -/

/-- Membership of pixel (row i, column j) in the filled cv2 disc. -/
def inCircle (i j : ℕ) : Bool :=
  decide (((j : ℤ) - 192) ^ 2 + ((i : ℤ) - 192) ^ 2 ≤ 165 ^ 2)

/-- Lines 149 to 152: the masking step of edit, applied to the 8-bit
reconstructed image when config.circle_mask is set and skipped otherwise. -/
def applyCircleMask (circle_mask : Bool) (img : ℕ → ℕ → ℕ) : ℕ → ℕ → ℕ :=
  if circle_mask then (fun i j => if inCircle i j then img i j else 0)
  else img

/-- C9: with circle_mask enabled, every pixel of the 8-bit reconstructed
image outside the disc of radius 165 centred at (192, 192) is exactly zero
after the masking step of edit; with circle_mask disabled the image is
unchanged by the masking step. -/
theorem circle_mask_correct :
    (∀ (img : ℕ → ℕ → ℕ) (i j : ℕ),
      165 ^ 2 < ((j : ℤ) - 192) ^ 2 + ((i : ℤ) - 192) ^ 2 →
      applyCircleMask true img i j = 0) ∧
    (∀ img : ℕ → ℕ → ℕ, applyCircleMask false img = img) := by
  constructor
  · intro img i j hout
    have hmem : inCircle i j = false := by
      simp only [inCircle, decide_eq_false_iff_not, not_le]
      exact hout
    simp [applyCircleMask, hmem]
  · intro img
    simp [applyCircleMask]

/-- Witness for C9 at pixel (0, 0), which lies outside the disc. -/
theorem circle_mask_correct_witness :
    ((165 : ℤ) ^ 2 < ((0 : ℤ) - 192) ^ 2 + ((0 : ℤ) - 192) ^ 2) ∧
    applyCircleMask true (fun _ _ => 7) 0 0 = 0 :=
  ⟨by decide, circle_mask_correct.1 (fun _ _ => 7) 0 0 (by decide)⟩

end GuidedLD
